import Mathlib

/-!
Shallow embedding of the lock-free audio bridge, input normalizer and
reentrancy guard of the glazer host layer (src/src/platform.rs, appkit
module, and src/src/lib.rs), with theorems checking the specification's
claims about them.

The ring-buffer state is the single packed `AtomicU64`
`AUDIO_SAMPLES_INDICES`: the write index in the high 32 bits, the read
index in the low 32 bits.  Machine integers are modelled as `Nat` with
explicit `% 2^32` / `% AUDIO_SAMPLES_LEN` where the code wraps; `i16`
samples are modelled as `ℤ` (their numeric value is never computed on).
-/

namespace Glazer

/-- Translation of `const AUDIO_SAMPLES_LEN: usize = 1024 * 4;` — the ring capacity. -/
def AUDIO_SAMPLES_LEN : Nat := 1024 * 4

/-- Translation of `const CHANNELS: usize = 2;` — interleaved channel count. -/
def CHANNELS : Nat := 2

/-- High half of the packed index word: `(indices >> 32) as usize`. -/
def writeIndexOf (indices : Nat) : Nat := indices / 2 ^ 32

/-- Low half of the packed index word: `(indices & u32::MAX as u64) as usize`. -/
def readIndexOf (indices : Nat) : Nat := indices % 2 ^ 32

/-- Initial packed word: `AtomicU64::new((2 << 32) | 0)`. -/
def initialIndices : Nat := 2 * 2 ^ 32 + 0

/-- The producer's free-space computation in `update` (platform.rs):
```
let samples_to_write = if write_index >= wrapped_read_index {
    (wrapped_read_index + AUDIO_SAMPLES_LEN - write_index - CHANNELS) % AUDIO_SAMPLES_LEN
} else {
    wrapped_read_index - write_index - CHANNELS
};
```
Under the index invariant no subtraction underflows, so truncated `Nat`
subtraction agrees with the Rust `usize` arithmetic. -/
def samplesToWrite (write_index wrapped_read_index : Nat) : Nat :=
  if write_index ≥ wrapped_read_index then
    (wrapped_read_index + AUDIO_SAMPLES_LEN - write_index - CHANNELS) % AUDIO_SAMPLES_LEN
  else
    wrapped_read_index - write_index - CHANNELS

/-- The consumer's occupied-count computation in `audio_callback`:
```
let available_samples = if wrapped_write_index >= read_index {
    wrapped_write_index - read_index
} else {
    wrapped_write_index + AUDIO_SAMPLES_LEN - read_index
};
``` -/
def availableSamples (wrapped_write_index read_index : Nat) : Nat :=
  if wrapped_write_index ≥ read_index then
    wrapped_write_index - read_index
  else
    wrapped_write_index + AUDIO_SAMPLES_LEN - read_index

/-- The closure passed to `fetch_update` by the producer:
```
let current_read_index = current_indices & u32::MAX as u64;
let new_write_index = ((write_index + samples_to_write) % AUDIO_SAMPLES_LEN) as u64;
Some((new_write_index << 32) | current_read_index)
```
Since `new_write_index < 2^32` and `current_read_index < 2^32`, the
`(hi << 32) | lo` packing equals `hi * 2^32 + lo`. -/
def producerPublish (write_index samples_to_write current_indices : Nat) : Nat :=
  ((write_index + samples_to_write) % AUDIO_SAMPLES_LEN) * 2 ^ 32 +
    current_indices % 2 ^ 32

/-- The closure passed to `fetch_update` by the consumer:
```
let current_write_index = current_indices >> 32;
let new_read_index = (read_index + samples_to_read) % AUDIO_SAMPLES_LEN;
Some((current_write_index << 32) | new_read_index as u64)
``` -/
def consumerPublish (read_index samples_to_read current_indices : Nat) : Nat :=
  (current_indices / 2 ^ 32) * 2 ^ 32 +
    (read_index + samples_to_read) % AUDIO_SAMPLES_LEN

/-- One producer tick's effect on the packed word (`update` loads the word,
computes `samples_to_write`, and publishes through `producerPublish`; in
the atomic-step semantics the word read back by `fetch_update` is the
word that was loaded). -/
def producerStep (s : Nat) : Nat :=
  producerPublish (writeIndexOf s) (samplesToWrite (writeIndexOf s) (readIndexOf s)) s

/-- One consumer callback's effect on the packed word for a request of
`frames` frames (`audio_callback` loads the word, computes
`samples_to_read = min available (frames * CHANNELS)`, and publishes
through `consumerPublish`). -/
def consumerStep (frames : Nat) (s : Nat) : Nat :=
  consumerPublish (readIndexOf s)
    (min (availableSamples (writeIndexOf s) (readIndexOf s)) (frames * CHANNELS)) s

/-- Packed words reachable from the initial word by producer and consumer
steps. -/
inductive Reachable : Nat → Prop
  | init : Reachable initialIndices
  | prod {s : Nat} : Reachable s → Reachable (producerStep s)
  | cons {s : Nat} (frames : Nat) : Reachable s → Reachable (consumerStep frames s)

/-- The index invariant asserted on every load (`assert_eq!(idx % CHANNELS, 0)`
in both `update` and `audio_callback`) together with in-range bounds:
both halves are multiples of `CHANNELS` and lie in `[0, AUDIO_SAMPLES_LEN)`. -/
def IndexInv (s : Nat) : Prop :=
  writeIndexOf s % CHANNELS = 0 ∧ writeIndexOf s < AUDIO_SAMPLES_LEN ∧
  readIndexOf s % CHANNELS = 0 ∧ readIndexOf s < AUDIO_SAMPLES_LEN

instance : DecidablePred IndexInv := fun s => by
  unfold IndexInv; infer_instance

-- Arithmetic helper lemmas ---------------------------------------------------

lemma writeIndexOf_producerPublish (w n s : Nat) :
    writeIndexOf (producerPublish w n s) = (w + n) % AUDIO_SAMPLES_LEN := by
  unfold writeIndexOf producerPublish AUDIO_SAMPLES_LEN
  omega

lemma readIndexOf_producerPublish (w n s : Nat) :
    readIndexOf (producerPublish w n s) = s % 2 ^ 32 := by
  unfold readIndexOf producerPublish AUDIO_SAMPLES_LEN
  omega

lemma writeIndexOf_consumerPublish (r n s : Nat) :
    writeIndexOf (consumerPublish r n s) = s / 2 ^ 32 := by
  unfold writeIndexOf consumerPublish AUDIO_SAMPLES_LEN
  omega

lemma readIndexOf_consumerPublish (r n s : Nat) :
    readIndexOf (consumerPublish r n s) = (r + n) % AUDIO_SAMPLES_LEN := by
  unfold readIndexOf consumerPublish AUDIO_SAMPLES_LEN
  omega

/-- Evenness and bound of `samplesToWrite` under the index invariant. -/
lemma samplesToWrite_even_le (w r : Nat) (hw2 : w % CHANNELS = 0)
    (hwlt : w < AUDIO_SAMPLES_LEN) (hr2 : r % CHANNELS = 0)
    (hrlt : r < AUDIO_SAMPLES_LEN) :
    samplesToWrite w r % CHANNELS = 0 ∧
      samplesToWrite w r ≤ AUDIO_SAMPLES_LEN - CHANNELS := by
  simp only [samplesToWrite, CHANNELS, AUDIO_SAMPLES_LEN] at *
  split <;> omega

/-- Evenness and bound of `availableSamples` under the index invariant. -/
lemma availableSamples_even_le (w r : Nat) (hw2 : w % CHANNELS = 0)
    (hwlt : w < AUDIO_SAMPLES_LEN) (hr2 : r % CHANNELS = 0)
    (hrlt : r < AUDIO_SAMPLES_LEN) :
    availableSamples w r % CHANNELS = 0 ∧
      availableSamples w r ≤ AUDIO_SAMPLES_LEN - CHANNELS := by
  simp only [availableSamples, CHANNELS, AUDIO_SAMPLES_LEN] at *
  split <;> omega

/-- The reserved-slot sum, for any pair of indices satisfying the invariant. -/
lemma available_add_toWrite (w r : Nat) (hw2 : w % CHANNELS = 0)
    (hwlt : w < AUDIO_SAMPLES_LEN) (hr2 : r % CHANNELS = 0)
    (hrlt : r < AUDIO_SAMPLES_LEN) :
    availableSamples w r + samplesToWrite w r = AUDIO_SAMPLES_LEN - CHANNELS := by
  simp only [availableSamples, samplesToWrite, CHANNELS, AUDIO_SAMPLES_LEN] at *
  split <;> omega

/-- Producer steps preserve the index invariant. -/
lemma producerStep_inv {s : Nat} (h : IndexInv s) : IndexInv (producerStep s) := by
  obtain ⟨hw2, hwlt, hr2, hrlt⟩ := h
  obtain ⟨hn2, hnle⟩ := samplesToWrite_even_le _ _ hw2 hwlt hr2 hrlt
  unfold IndexInv producerStep
  rw [writeIndexOf_producerPublish, readIndexOf_producerPublish]
  have hs : s % 2 ^ 32 = readIndexOf s := rfl
  rw [hs]
  simp only [CHANNELS, AUDIO_SAMPLES_LEN] at *
  omega

/-- Consumer steps preserve the index invariant. -/
lemma consumerStep_inv {s : Nat} (frames : Nat) (h : IndexInv s) :
    IndexInv (consumerStep frames s) := by
  obtain ⟨hw2, hwlt, hr2, hrlt⟩ := h
  obtain ⟨hn2, hnle⟩ := availableSamples_even_le _ _ hw2 hwlt hr2 hrlt
  unfold IndexInv consumerStep
  rw [writeIndexOf_consumerPublish, readIndexOf_consumerPublish]
  have hs : s / 2 ^ 32 = writeIndexOf s := rfl
  rw [hs]
  simp only [CHANNELS, AUDIO_SAMPLES_LEN] at *
  omega

lemma reachable_inv {s : Nat} (h : Reachable s) : IndexInv s := by
  induction h with
  | init => decide
  | prod _ ih => exact producerStep_inv ih
  | cons frames _ ih => exact consumerStep_inv frames ih

-- The producer's copy loop ---------------------------------------------------

/-- The producer's copy loop in `update` (platform.rs):
```
let mut index = write_index;
for sample in GAME_SAMPLES[..samples_to_write].iter() {
    AUDIO_SAMPLES[index] = *sample;
    index = (index + 1) % AUDIO_SAMPLES_LEN;
}
```
The ring `AUDIO_SAMPLES` is modelled as a function `Nat → ℤ` (only
positions `< AUDIO_SAMPLES_LEN` are ever written, since `index` stays
reduced); `game` is the scratch slice `GAME_SAMPLES[..samples_to_write]`. -/
def copyIntoRing (ring : Nat → ℤ) (game : List ℤ) (index : Nat) : Nat → ℤ :=
  match game with
  | [] => ring
  | s :: rest =>
      copyIntoRing (Function.update ring index s) rest ((index + 1) % AUDIO_SAMPLES_LEN)

/-- Positions outside the window `{(index + j) % capacity | j < game.length}`
are untouched by the copy loop. -/
lemma copyIntoRing_not_written (game : List ℤ) :
    ∀ (ring : Nat → ℤ) (index p : Nat), index < AUDIO_SAMPLES_LEN →
      (∀ j, j < game.length → (index + j) % AUDIO_SAMPLES_LEN ≠ p) →
      copyIntoRing ring game index p = ring p := by
  induction game with
  | nil => intro ring index p _ _; rfl
  | cons s rest ih =>
    intro ring index p hidx hnot
    unfold copyIntoRing
    rw [ih _ _ _ (Nat.mod_lt _ (by norm_num [AUDIO_SAMPLES_LEN])) ?_]
    · have h0 : p ≠ index := by
        have := hnot 0 (by simp)
        rw [Nat.add_zero, Nat.mod_eq_of_lt hidx] at this
        exact fun h => this h.symm
      exact Function.update_noteq h0 _ _
    · intro j hj
      have h1 := hnot (j + 1) (by simpa using Nat.succ_lt_succ hj)
      have h2 : ((index + 1) % AUDIO_SAMPLES_LEN + j) % AUDIO_SAMPLES_LEN =
          (index + (j + 1)) % AUDIO_SAMPLES_LEN := by
        unfold AUDIO_SAMPLES_LEN
        omega
      rw [h2]
      exact h1

/-- The `j`-th write of the copy loop lands at `(index + j) % capacity` and
deposits the `j`-th scratch sample there. -/
lemma copyIntoRing_written (game : List ℤ) :
    ∀ (ring : Nat → ℤ) (index : Nat), index < AUDIO_SAMPLES_LEN →
      game.length ≤ AUDIO_SAMPLES_LEN →
      ∀ j, j < game.length →
      copyIntoRing ring game index ((index + j) % AUDIO_SAMPLES_LEN) = game.getD j 0 := by
  induction game with
  | nil => intro _ _ _ _ j hj; exact absurd hj (by simp)
  | cons s rest ih =>
    intro ring index hidx hlen j hj
    unfold copyIntoRing
    cases j with
    | zero =>
      rw [copyIntoRing_not_written rest _ _ _
        (Nat.mod_lt _ (by norm_num [AUDIO_SAMPLES_LEN])) ?_]
      · rw [Nat.add_zero, Nat.mod_eq_of_lt hidx]
        simp [Function.update_same]
      · intro j hjr
        have hlen2 : rest.length + 1 ≤ AUDIO_SAMPLES_LEN := by simpa using hlen
        unfold AUDIO_SAMPLES_LEN at *
        omega
    | succ j' =>
      have hpos : (index + (j' + 1)) % AUDIO_SAMPLES_LEN =
          ((index + 1) % AUDIO_SAMPLES_LEN + j') % AUDIO_SAMPLES_LEN := by
        unfold AUDIO_SAMPLES_LEN
        omega
      rw [hpos]
      have hr := ih (Function.update ring index s)
        ((index + 1) % AUDIO_SAMPLES_LEN)
        (Nat.mod_lt _ (by norm_num [AUDIO_SAMPLES_LEN]))
        (le_trans (by simp) hlen) j' (by simpa using Nat.lt_of_succ_lt_succ hj)
      rw [hr]
      simp

-- The consumer's copy loop and the render callback ---------------------------

/-- The consumer's copy loop in `audio_callback`:
```
let mut index = read_index;
for frame in data.chunks_mut(CHANNELS).take(frames_to_read) {
    frame[0] = AUDIO_SAMPLES[index];
    frame[1] = AUDIO_SAMPLES[index + 1];
    index = (index + CHANNELS) % AUDIO_SAMPLES_LEN;
}
```
`readFrames ring index n` is the sequence of samples deposited in the
first `n` destination frames. -/
def readFrames (ring : Nat → ℤ) : Nat → Nat → List ℤ
  | _index, 0 => []
  | index, n + 1 =>
      ring index :: ring (index + 1) ::
        readFrames ring ((index + CHANNELS) % AUDIO_SAMPLES_LEN) n

lemma readFrames_length (ring : Nat → ℤ) :
    ∀ (n index : Nat), (readFrames ring index n).length = n * CHANNELS := by
  intro n
  induction n with
  | zero => intro index; rfl
  | succ n ih =>
    intro index
    unfold readFrames
    simp only [List.length_cons, ih]
    unfold CHANNELS
    omega

lemma readFrames_getD (ring : Nat → ℤ) :
    ∀ (n index : Nat), index % CHANNELS = 0 → index < AUDIO_SAMPLES_LEN →
      ∀ i, i < n * CHANNELS →
        (readFrames ring index n).getD i 0 = ring ((index + i) % AUDIO_SAMPLES_LEN) := by
  intro n
  induction n with
  | zero =>
    intro index _ _ i hi
    simp [CHANNELS] at hi
  | succ n ih =>
    intro index h2 hlt i hi
    have hlast : index + 1 < AUDIO_SAMPLES_LEN := by
      unfold CHANNELS AUDIO_SAMPLES_LEN at *
      omega
    unfold readFrames
    match i with
    | 0 =>
      simp only [List.getD_cons_zero]
      rw [Nat.add_zero, Nat.mod_eq_of_lt hlt]
    | 1 =>
      simp only [List.getD_cons_succ, List.getD_cons_zero]
      rw [Nat.mod_eq_of_lt hlast]
    | (j + 2) =>
      simp only [List.getD_cons_succ]
      have hrec := ih ((index + CHANNELS) % AUDIO_SAMPLES_LEN)
        (by unfold CHANNELS AUDIO_SAMPLES_LEN at *; omega)
        (Nat.mod_lt _ (by norm_num [AUDIO_SAMPLES_LEN])) j
        (by unfold CHANNELS at *; omega)
      rw [hrec]
      have : ((index + CHANNELS) % AUDIO_SAMPLES_LEN + j) % AUDIO_SAMPLES_LEN =
          (index + (j + 2)) % AUDIO_SAMPLES_LEN := by
        unfold CHANNELS AUDIO_SAMPLES_LEN
        omega
      rw [this]

/-- What the render callback leaves behind: the destination buffer
contents, the number of underrun diagnostics logged, and the status code
it returns. -/
structure CallbackResult where
  output : List ℤ
  underruns : Nat
  retCode : ℤ
  deriving DecidableEq

/-- Translation of `audio_callback` (platform.rs) against the loaded snapshot halves
`w` (wrapped write index), `r` (read index), for a hardware request of
`frames` frames into a destination buffer of `frames * CHANNELS`
interleaved `i16` slots (`mDataByteSize / 2`):
```
let available_samples = ...;                       -- availableSamples
let samples_needed = frames * CHANNELS;
let samples_to_read = available_samples.min(samples_needed);
let frames_to_read = samples_to_read / CHANNELS;
-- copy loop                                       -- readFrames
if frames_to_read < frames {
    crate::log!("ERROR: audio underrun ...");      -- one underrun record
    for i in frames_to_read..frames {
        data[i * CHANNELS] = 0;
        data[i * CHANNELS + 1] = 0;
    }
}
-- fetch_update publish                            -- consumerPublish
0                                                  -- return code
```
The zero-fill writes exactly the destination slots after the
`frames_to_read * CHANNELS` copied ones, so the final buffer is the
copied prefix followed by zeros. -/
def audioCallback (ring : Nat → ℤ) (frames w r : Nat) : CallbackResult :=
  let available_samples := availableSamples w r
  let samples_needed := frames * CHANNELS
  let samples_to_read := min available_samples samples_needed
  let frames_to_read := samples_to_read / CHANNELS
  let copied := readFrames ring r frames_to_read
  if frames_to_read < frames then
    { output := copied ++ List.replicate ((frames - frames_to_read) * CHANNELS) 0
      underruns := 1
      retCode := 0 }
  else
    { output := copied, underruns := 0, retCode := 0 }

-- Input normalizer -----------------------------------------------------------

/-- Key codes of the host layer.  The `KeyCode` enum is declared in the
crate root, which is not among the given sources; the variants here are
exactly those used by `KEY_CODE_LUT` and `flags_changed` in platform.rs. -/
inductive KeyCode where
  | Unknown
  | KeyA | KeyB | KeyC | KeyD | KeyE | KeyF | KeyG | KeyH | KeyI | KeyJ
  | KeyK | KeyL | KeyM | KeyN | KeyO | KeyP | KeyQ | KeyR | KeyS | KeyT
  | KeyU | KeyV | KeyW | KeyX | KeyY | KeyZ
  | Num0 | Num1 | Num2 | Num3 | Num4 | Num5 | Num6 | Num7 | Num8 | Num9
  | EqualSign | Hyphen | OpenBracket | CloseBracket | Quote | Semicolon
  | Backslash | NonUSBackslash | NonUSPound | Comma | Slash | Period
  | Tab | Spacebar | Return | DeleteOrBackspace | Escape | Separator
  | Insert | Home | PageUp | DeleteForward | End | PageDown
  | LeftArrow | RightArrow | DownArrow | UpArrow
  | LeftShift | LeftControl | LeftAlt
  deriving DecidableEq

/-- AppKit `NSEventModifierFlags` bit for the shift key: `1 << 17`. -/
def shiftFlag : Nat := 2 ^ 17

/-- AppKit `NSEventModifierFlags` bit for the control key: `1 << 18`. -/
def controlFlag : Nat := 2 ^ 18

/-- AppKit `NSEventModifierFlags` bit for the option key: `1 << 19`. -/
def optionFlag : Nat := 2 ^ 19

/-- AppKit `NSEventModifierFlags` bit for the command key: `1 << 20`. -/
def commandFlag : Nat := 2 ^ 20

/-- One synthesized `Input::Key` event as emitted by `flags_changed`.  The
`modifiers` field (a pure function of `current_flags` through
`From<NSEventModifierFlags> for KeyModifiers`, whose constants are
declared outside the given sources) and the `repeat` field (always
`false` in `flags_changed`) are omitted. -/
structure KeyEvent where
  code : KeyCode
  pressed : Bool
  deriving DecidableEq

/-- Translation of `flags_changed` (platform.rs):
```
let changed = current_flags.bits() ^ PREVIOUS_MODIFIER_FLAGS.bits();
PREVIOUS_MODIFIER_FLAGS = current_flags;
let pressed = (current_flags.bits() & changed) != 0;
if changed & NSEventModifierFlags::Shift.bits() != 0 { update(... LeftShift, pressed ...) }
if changed & NSEventModifierFlags::Control.bits() != 0 { update(... LeftControl, pressed ...) }
if changed & NSEventModifierFlags::Option.bits() != 0 { update(... LeftAlt, pressed ...) }
if changed & NSEventModifierFlags::Command.bits() != 0 { /* TODO: no event */ }
```
Returns the emitted event list; the stored new previous state is
`current`. -/
def flagsChanged (previous current : Nat) : List KeyEvent :=
  let changed := Nat.xor current previous
  let pressed := decide (Nat.land current changed ≠ 0)
  (if Nat.land changed shiftFlag ≠ 0 then [⟨KeyCode.LeftShift, pressed⟩] else []) ++
  (if Nat.land changed controlFlag ≠ 0 then [⟨KeyCode.LeftControl, pressed⟩] else []) ++
  (if Nat.land changed optionFlag ≠ 0 then [⟨KeyCode.LeftAlt, pressed⟩] else [])

/-- Events emitted over a sequence of raw modifier-state reports, folding
`flags_changed` with its stored previous bitmask. -/
def processReports (previous : Nat) : List Nat → List KeyEvent
  | [] => []
  | c :: rest => flagsChanged previous c ++ processReports c rest

-- Key-code lookup table ------------------------------------------------------

/-- Translation of `KEY_CODE_LUT` (platform.rs): a 128-entry table,
initialized to `KeyCode::Unknown` and then assigned entry by entry. -/
def KEY_CODE_LUT : List KeyCode :=
  (List.replicate 128 KeyCode.Unknown).set 0x00 KeyCode.KeyA
    |>.set 0x01 KeyCode.KeyS
    |>.set 0x02 KeyCode.KeyD
    |>.set 0x03 KeyCode.KeyF
    |>.set 0x04 KeyCode.KeyH
    |>.set 0x05 KeyCode.KeyG
    |>.set 0x06 KeyCode.KeyZ
    |>.set 0x07 KeyCode.KeyX
    |>.set 0x08 KeyCode.KeyC
    |>.set 0x09 KeyCode.KeyV
    |>.set 0x0A KeyCode.NonUSBackslash
    |>.set 0x0B KeyCode.KeyB
    |>.set 0x0C KeyCode.KeyQ
    |>.set 0x0D KeyCode.KeyW
    |>.set 0x0E KeyCode.KeyE
    |>.set 0x0F KeyCode.KeyR
    |>.set 0x10 KeyCode.KeyY
    |>.set 0x11 KeyCode.KeyT
    |>.set 0x12 KeyCode.Num1
    |>.set 0x13 KeyCode.Num2
    |>.set 0x14 KeyCode.Num3
    |>.set 0x15 KeyCode.Num4
    |>.set 0x16 KeyCode.Num6
    |>.set 0x17 KeyCode.Num5
    |>.set 0x18 KeyCode.EqualSign
    |>.set 0x19 KeyCode.Num9
    |>.set 0x1A KeyCode.Num7
    |>.set 0x1B KeyCode.Hyphen
    |>.set 0x1C KeyCode.Num8
    |>.set 0x1D KeyCode.Num0
    |>.set 0x1E KeyCode.CloseBracket
    |>.set 0x1F KeyCode.KeyO
    |>.set 0x20 KeyCode.KeyU
    |>.set 0x21 KeyCode.OpenBracket
    |>.set 0x22 KeyCode.KeyI
    |>.set 0x23 KeyCode.KeyP
    |>.set 0x24 KeyCode.Return
    |>.set 0x25 KeyCode.KeyL
    |>.set 0x26 KeyCode.KeyJ
    |>.set 0x27 KeyCode.Quote
    |>.set 0x28 KeyCode.KeyK
    |>.set 0x29 KeyCode.Semicolon
    |>.set 0x2A KeyCode.Backslash
    |>.set 0x2B KeyCode.Comma
    |>.set 0x2C KeyCode.Slash
    |>.set 0x2D KeyCode.KeyN
    |>.set 0x2E KeyCode.KeyM
    |>.set 0x2F KeyCode.Period
    |>.set 0x30 KeyCode.Tab
    |>.set 0x31 KeyCode.Spacebar
    |>.set 0x32 KeyCode.NonUSPound
    |>.set 0x33 KeyCode.DeleteOrBackspace
    |>.set 0x34 KeyCode.Return
    |>.set 0x35 KeyCode.Escape
    |>.set 0x5F KeyCode.Separator
    |>.set 0x72 KeyCode.Insert
    |>.set 0x73 KeyCode.Home
    |>.set 0x74 KeyCode.PageUp
    |>.set 0x75 KeyCode.DeleteForward
    |>.set 0x77 KeyCode.End
    |>.set 0x79 KeyCode.PageDown
    |>.set 0x7B KeyCode.LeftArrow
    |>.set 0x7C KeyCode.RightArrow
    |>.set 0x7D KeyCode.DownArrow
    |>.set 0x7E KeyCode.UpArrow

/-- Indices explicitly assigned by the `KEY_CODE_LUT` builder: the
contiguous block `0x00`–`0x35` and the sparse navigation/editing codes.
Every other index keeps the `KeyCode::Unknown` fill of
`[KeyCode::Unknown; 128]`. -/
def assignedKeyCodes : List Nat :=
  List.range 0x36 ++ [0x5F, 0x72, 0x73, 0x74, 0x75, 0x77, 0x79, 0x7B, 0x7C, 0x7D, 0x7E]

/-- Translation of the lookup performed by `keyDown:`/`keyUp:`:
`KEY_CODE_LUT[event.keyCode() as usize]`.  Rust slice indexing panics when
the index is out of bounds, which `none` models; `event.keyCode()` is a
`c_ushort`, so any value up to `65535` can arrive here. -/
def translateKeyCode (code : Nat) : Option KeyCode :=
  KEY_CODE_LUT[code]?

-- Reentrancy guard (GameView::update in lib.rs) -------------------------------

/-- Outcome of one frame tick of `GameView::update` (lib.rs): the pixel
buffer, the application memory, the stored timestamp, and whether the
user update ran. -/
structure TickResult (φ μ : Type) where
  fb : φ
  memory : μ
  lastTime : ℤ
  ranUpdate : Bool

/-- Translation of `GameView::update` (lib.rs): it computes `delta` and
stores the new `last_time` unconditionally, then attempts
`ivars.fb.try_borrow_mut()`; only when the mutable borrow is granted does
it run the user update closure (which may mutate the pixel buffer and the
application memory) and request display.  `fbHeld` says whether the
`RefCell` guarding the pixel buffer is already mutably borrowed by an
in-progress tick; timestamps are abstract integers and the window-title
update, which touches neither guarded object, is omitted. -/
def gameViewUpdate {φ μ : Type} (fbHeld : Bool) (fb : φ) (memory : μ)
    (lastTime now : ℤ) (userUpdate : ℤ → φ → μ → φ × μ) : TickResult φ μ :=
  let delta := now - lastTime
  if fbHeld then
    { fb := fb, memory := memory, lastTime := now, ranUpdate := false }
  else
    let r := userUpdate delta fb memory
    { fb := r.1, memory := r.2, lastTime := now, ranUpdate := true }

end Glazer

-- Claim theorems (C1, C4, C6, C10) -------------------------------------------

namespace Glazer

/-- C1: at every reachable state of the ring (capacity 4096, 2 channels),
the samples available to read as computed by the consumer plus the slots
available to write as computed by the producer equal
`AUDIO_SAMPLES_LEN - CHANNELS`; since every producer and consumer step
maps reachable states to reachable states, the sum is preserved by every
step. -/
theorem reserved_slot_invariant (s : Nat) (h : Reachable s) :
    availableSamples (writeIndexOf s) (readIndexOf s) +
      samplesToWrite (writeIndexOf s) (readIndexOf s) =
      AUDIO_SAMPLES_LEN - CHANNELS := by
  obtain ⟨hw2, hwlt, hr2, hrlt⟩ := reachable_inv h
  exact available_add_toWrite _ _ hw2 hwlt hr2 hrlt

/-- Witness for C1 at the initial packed word. -/
theorem reserved_slot_invariant_witness :
    availableSamples (writeIndexOf initialIndices) (readIndexOf initialIndices) +
      samplesToWrite (writeIndexOf initialIndices) (readIndexOf initialIndices) =
      AUDIO_SAMPLES_LEN - CHANNELS :=
  reserved_slot_invariant initialIndices Reachable.init

/-- C4: the producer's `fetch_update` closure replaces only the high (write)
half of the packed word with `(write_index + samples_to_write) mod capacity`
and keeps the low (read) half exactly as found in the current word, and the
consumer's closure symmetrically replaces only the low (read) half with
`(read_index + samples_to_read) mod capacity` and keeps the high (write)
half unchanged. -/
theorem publish_touches_only_own_half (w n r m current : Nat) :
    readIndexOf (producerPublish w n current) = readIndexOf current ∧
    writeIndexOf (producerPublish w n current) = (w + n) % AUDIO_SAMPLES_LEN ∧
    writeIndexOf (consumerPublish r m current) = writeIndexOf current ∧
    readIndexOf (consumerPublish r m current) = (r + m) % AUDIO_SAMPLES_LEN :=
  ⟨readIndexOf_producerPublish w n current,
   writeIndexOf_producerPublish w n current,
   writeIndexOf_consumerPublish r m current,
   readIndexOf_consumerPublish r m current⟩

/-- Witness for C4 at the initial packed word. -/
theorem publish_touches_only_own_half_witness :
    readIndexOf (producerPublish 2 4 initialIndices) = readIndexOf initialIndices ∧
    writeIndexOf (producerPublish 2 4 initialIndices) = (2 + 4) % AUDIO_SAMPLES_LEN ∧
    writeIndexOf (consumerPublish 0 2 initialIndices) = writeIndexOf initialIndices ∧
    readIndexOf (consumerPublish 0 2 initialIndices) = (0 + 2) % AUDIO_SAMPLES_LEN :=
  publish_touches_only_own_half 2 4 0 2 initialIndices

/-- C6: starting from the initial packed word, every sequence of producer
and consumer steps keeps both halves multiples of `CHANNELS` and inside
`[0, AUDIO_SAMPLES_LEN)`, so the `assert_eq!(_ % CHANNELS, 0)` checks on
every load never fire. -/
theorem index_invariant_reachable (s : Nat) (h : Reachable s) : IndexInv s :=
  reachable_inv h

/-- Witness for C6 at the initial packed word. -/
theorem index_invariant_reachable_witness : IndexInv initialIndices :=
  index_invariant_reachable initialIndices Reachable.init

/-- C2: for every pair of indices that are multiples of `CHANNELS` in
`[0, AUDIO_SAMPLES_LEN)`, the producer's two-branch `samples_to_write`
computation equals the single modular expression
`(read_index - write_index - CHANNELS) mod AUDIO_SAMPLES_LEN` (in both the
wrapped and unwrapped cases), and — the scratch slice handed to the user
having exactly `samples_to_write` samples — the copy loop deposits
exactly those samples at `(write_index + j) % capacity` and touches no
other ring position. -/
theorem producer_clamp_and_copy (w r : Nat) (ring : Nat → ℤ) (game : List ℤ)
    (hw2 : w % CHANNELS = 0) (hwlt : w < AUDIO_SAMPLES_LEN)
    (hr2 : r % CHANNELS = 0) (hrlt : r < AUDIO_SAMPLES_LEN)
    (hg : game.length = samplesToWrite w r) :
    samplesToWrite w r =
      (((r : ℤ) - (w : ℤ) - (CHANNELS : ℤ)) % (AUDIO_SAMPLES_LEN : ℤ)).toNat ∧
    (∀ j, j < game.length →
      copyIntoRing ring game w ((w + j) % AUDIO_SAMPLES_LEN) = game.getD j 0) ∧
    (∀ p, (∀ j, j < game.length → (w + j) % AUDIO_SAMPLES_LEN ≠ p) →
      copyIntoRing ring game w p = ring p) := by
  have hle := (samplesToWrite_even_le w r hw2 hwlt hr2 hrlt).2
  refine ⟨?_, ?_, ?_⟩
  · simp only [samplesToWrite, CHANNELS, AUDIO_SAMPLES_LEN] at *
    split <;> omega
  · intro j hj
    refine copyIntoRing_written game ring w hwlt ?_ j hj
    rw [hg]
    unfold CHANNELS AUDIO_SAMPLES_LEN at *
    omega
  · intro p hp
    exact copyIntoRing_not_written game ring w p hwlt hp

/-- Witness for C2 at `write_index = 2`, `read_index = 4`, where
`samples_to_write = 0` and the scratch slice is empty. -/
theorem producer_clamp_and_copy_witness :
    (([] : List ℤ).length = samplesToWrite 2 4) ∧
    samplesToWrite 2 4 =
      ((((4 : ℕ) : ℤ) - ((2 : ℕ) : ℤ) - (CHANNELS : ℤ)) % (AUDIO_SAMPLES_LEN : ℤ)).toNat :=
  ⟨by decide,
   (producer_clamp_and_copy 2 4 (fun _ => 0) [] (by decide) (by decide)
     (by decide) (by decide) (by decide)).1⟩

/-- C3: when the callback requests `N = frames * CHANNELS` samples but only
`M = availableSamples w r < N` are available, the destination buffer ends
as the `M` copied samples followed by exactly `N - M` zero slots, exactly
one underrun is recorded, and the callback still returns the success
code `0`. -/
theorem underrun_policy (ring : Nat → ℤ) (frames w r : Nat)
    (hw2 : w % CHANNELS = 0) (hwlt : w < AUDIO_SAMPLES_LEN)
    (hr2 : r % CHANNELS = 0) (hrlt : r < AUDIO_SAMPLES_LEN)
    (hunder : availableSamples w r < frames * CHANNELS) :
    (audioCallback ring frames w r).output.length = frames * CHANNELS ∧
    (audioCallback ring frames w r).output.drop (availableSamples w r) =
      List.replicate (frames * CHANNELS - availableSamples w r) 0 ∧
    (audioCallback ring frames w r).underruns = 1 ∧
    (audioCallback ring frames w r).retCode = 0 := by
  have hM2 := (availableSamples_even_le w r hw2 hwlt hr2 hrlt).1
  have hmin : min (availableSamples w r) (frames * CHANNELS) = availableSamples w r :=
    Nat.min_eq_left (Nat.le_of_lt hunder)
  have hftr : availableSamples w r / CHANNELS < frames := by
    unfold CHANNELS at *
    omega
  have hclen : (readFrames ring r (availableSamples w r / CHANNELS)).length =
      availableSamples w r := by
    rw [readFrames_length]
    unfold CHANNELS at *
    omega
  have h1 : (frames - availableSamples w r / CHANNELS) * CHANNELS =
      frames * CHANNELS - availableSamples w r := by
    unfold CHANNELS at *
    omega
  have hcb : audioCallback ring frames w r =
      { output := readFrames ring r (availableSamples w r / CHANNELS) ++
          List.replicate (frames * CHANNELS - availableSamples w r) 0
        underruns := 1
        retCode := 0 } := by
    simp only [audioCallback, hmin, if_pos hftr, h1]
  rw [hcb]
  refine ⟨?_, ?_, rfl, rfl⟩
  · rw [List.length_append, hclen, List.length_replicate]
    unfold CHANNELS at *
    omega
  · have hdrop := List.drop_left (readFrames ring r (availableSamples w r / CHANNELS))
      (List.replicate (frames * CHANNELS - availableSamples w r) (0 : ℤ))
    rw [hclen] at hdrop
    exact hdrop

/-- Witness for C3: two frames requested while only two samples (one
frame) are available. -/
theorem underrun_policy_witness :
    availableSamples 2 0 < 2 * CHANNELS ∧
    (audioCallback (fun i => (i : ℤ) + 1) 2 2 0).underruns = 1 :=
  ⟨by decide,
   (underrun_policy (fun i => (i : ℤ) + 1) 2 2 0 (by decide) (by decide)
     (by decide) (by decide) (by decide)).2.2.1⟩

/-- C5: the callback copies exactly
`min (availableSamples w r) (frames * CHANNELS)` samples into the
destination, and the `i`-th copied destination slot holds the ring sample
at `(read_index + i) % AUDIO_SAMPLES_LEN` — ring order starting at the
read index, wrapping at the capacity. -/
theorem consumer_copies_min_in_order (ring : Nat → ℤ) (frames w r : Nat)
    (hw2 : w % CHANNELS = 0) (hwlt : w < AUDIO_SAMPLES_LEN)
    (hr2 : r % CHANNELS = 0) (hrlt : r < AUDIO_SAMPLES_LEN) :
    (readFrames ring r
        (min (availableSamples w r) (frames * CHANNELS) / CHANNELS)).length =
      min (availableSamples w r) (frames * CHANNELS) ∧
    ∀ i, i < min (availableSamples w r) (frames * CHANNELS) →
      (audioCallback ring frames w r).output.getD i 0 =
        ring ((r + i) % AUDIO_SAMPLES_LEN) := by
  have hM2 := (availableSamples_even_le w r hw2 hwlt hr2 hrlt).1
  have hstr2 : min (availableSamples w r) (frames * CHANNELS) % CHANNELS = 0 := by
    rcases min_cases (availableSamples w r) (frames * CHANNELS) with ⟨heq, _⟩ | ⟨heq, _⟩
    · rw [heq]; exact hM2
    · rw [heq]; exact Nat.mul_mod_left _ _
  have hlen : (readFrames ring r
      (min (availableSamples w r) (frames * CHANNELS) / CHANNELS)).length =
      min (availableSamples w r) (frames * CHANNELS) := by
    rw [readFrames_length]
    unfold CHANNELS at *
    omega
  refine ⟨hlen, ?_⟩
  intro i hi
  have hget := readFrames_getD ring
    (min (availableSamples w r) (frames * CHANNELS) / CHANNELS) r hr2 hrlt i
    (by unfold CHANNELS at *; omega)
  simp only [audioCallback]
  split
  · rw [List.getD_append _ _ _ _ (by rw [hlen]; exact hi)]
    exact hget
  · exact hget

/-- Witness for C5: one frame requested with two samples available. -/
theorem consumer_copies_min_in_order_witness :
    (2 : ℕ) % CHANNELS = 0 ∧
    (readFrames (fun i => (i : ℤ))
        0 (min (availableSamples 2 0) (1 * CHANNELS) / CHANNELS)).length =
      min (availableSamples 2 0) (1 * CHANNELS) :=
  ⟨by decide,
   (consumer_copies_min_in_order (fun i => (i : ℤ)) 1 2 0 (by decide) (by decide)
     (by decide) (by decide)).1⟩

/-- C7 counterexample: in a single report going from previous = SHIFT to
current = CONTROL, the SHIFT bit is set in `changed` and unset in
`current`, so the claim demands a release(SHIFT) event; but
`flags_changed` computes one shared `pressed` flag for the whole report
(`(current & changed) != 0`, true here because CONTROL is newly set) and
emits press(SHIFT), press(CONTROL) — no release event at all. -/
theorem modifier_edge_counterexample :
    Nat.land (Nat.xor controlFlag shiftFlag) shiftFlag ≠ 0 ∧
    Nat.land controlFlag shiftFlag = 0 ∧
    flagsChanged shiftFlag controlFlag =
      [⟨KeyCode.LeftShift, true⟩, ⟨KeyCode.LeftControl, true⟩] := by
  decide

/-- C7 (amended): `flags_changed` computes `changed = previous XOR current`
and one shared flag `pressed = (current AND changed) != 0` per report; for
each of the SHIFT, CONTROL and OPTION bits set in `changed` it emits
exactly one event for the corresponding key carrying that shared flag, and
no other events; for reports that change a single modifier bit the shared
flag coincides with per-bit press/release, and in particular the sequence
`0 → SHIFT → SHIFT|CONTROL → CONTROL → 0` yields exactly
press(SHIFT), press(CONTROL), release(SHIFT), release(CONTROL). -/
theorem modifier_edge_detection (previous current : Nat) :
    ((flagsChanged previous current).filter
        (fun e => decide (e.code = KeyCode.LeftShift)) =
      if Nat.land (Nat.xor current previous) shiftFlag ≠ 0 then
        [⟨KeyCode.LeftShift, decide (Nat.land current (Nat.xor current previous) ≠ 0)⟩]
      else []) ∧
    ((flagsChanged previous current).filter
        (fun e => decide (e.code = KeyCode.LeftControl)) =
      if Nat.land (Nat.xor current previous) controlFlag ≠ 0 then
        [⟨KeyCode.LeftControl, decide (Nat.land current (Nat.xor current previous) ≠ 0)⟩]
      else []) ∧
    ((flagsChanged previous current).filter
        (fun e => decide (e.code = KeyCode.LeftAlt)) =
      if Nat.land (Nat.xor current previous) optionFlag ≠ 0 then
        [⟨KeyCode.LeftAlt, decide (Nat.land current (Nat.xor current previous) ≠ 0)⟩]
      else []) ∧
    (∀ e ∈ flagsChanged previous current,
      e.code = KeyCode.LeftShift ∨ e.code = KeyCode.LeftControl ∨
        e.code = KeyCode.LeftAlt) ∧
    processReports 0 [shiftFlag, Nat.lor shiftFlag controlFlag, controlFlag, 0] =
      [⟨KeyCode.LeftShift, true⟩, ⟨KeyCode.LeftControl, true⟩,
       ⟨KeyCode.LeftShift, false⟩, ⟨KeyCode.LeftControl, false⟩] := by
  refine ⟨?_, ?_, ?_, ?_, by decide⟩ <;>
  · simp only [flagsChanged]
    by_cases h1 : Nat.land (Nat.xor current previous) shiftFlag ≠ 0 <;>
      by_cases h2 : Nat.land (Nat.xor current previous) controlFlag ≠ 0 <;>
        by_cases h3 : Nat.land (Nat.xor current previous) optionFlag ≠ 0 <;>
          simp [h1, h2, h3, List.filter]

/-- Witness for C7 (amended): the concrete four-report sequence of the
claim. -/
theorem modifier_edge_detection_witness :
    processReports 0 [shiftFlag, Nat.lor shiftFlag controlFlag, controlFlag, 0] =
      [⟨KeyCode.LeftShift, true⟩, ⟨KeyCode.LeftControl, true⟩,
       ⟨KeyCode.LeftShift, false⟩, ⟨KeyCode.LeftControl, false⟩] :=
  (modifier_edge_detection 0 0).2.2.2.2

set_option maxRecDepth 8192 in
/-- C8 counterexample: `event.keyCode()` is a `c_ushort`, so the value
`128` can arrive at `KEY_CODE_LUT[event.keyCode() as usize]`, and the
128-entry table has no such index: the lookup panics (modelled as `none`)
instead of translating to a sentinel — the translation is not total over
all possible key code values. -/
theorem key_translation_counterexample : translateKeyCode 128 = none := by
  decide

set_option maxRecDepth 8192 in
/-- C8 (amended): for every key code below the table size 128, the
translation through `KEY_CODE_LUT` is total, and every code below 128
with no explicit entry in the builder maps to the sentinel
`KeyCode::Unknown`, while any code at or above 128 falls outside the
table and the indexing fails. -/
theorem key_translation_total_below_128 :
    (∀ code : Nat, code < 128 → (translateKeyCode code).isSome = true) ∧
    (∀ code : Nat, 128 ≤ code → translateKeyCode code = none) ∧
    (∀ code : Nat, code < 128 → code ∉ assignedKeyCodes →
      translateKeyCode code = some KeyCode.Unknown) := by
  have hlen : KEY_CODE_LUT.length = 128 := by decide
  refine ⟨?_, ?_, ?_⟩
  · intro code h
    unfold translateKeyCode
    rw [List.getElem?_eq_getElem (by rw [hlen]; exact h)]
    rfl
  · intro code h
    unfold translateKeyCode
    rw [List.getElem?_eq_none]
    rw [hlen]
    exact h
  · decide

set_option maxRecDepth 8192 in
/-- Witness for C8 (amended) at key code 5 (mapped), 200 (out of range)
and 0x36 (in range, no explicit entry). -/
theorem key_translation_total_below_128_witness :
    ((5 : Nat) < 128 ∧ (translateKeyCode 5).isSome = true) ∧
    ((128 : Nat) ≤ 200 ∧ translateKeyCode 200 = none) ∧
    ((0x36 : Nat) < 128 ∧ (0x36 : Nat) ∉ assignedKeyCodes ∧
      translateKeyCode 0x36 = some KeyCode.Unknown) :=
  ⟨⟨by decide, key_translation_total_below_128.1 5 (by decide)⟩,
   ⟨by decide, key_translation_total_below_128.2.1 200 (by decide)⟩,
   ⟨by decide, by decide,
    key_translation_total_below_128.2.2 0x36 (by decide) (by decide)⟩⟩

/-- C9: a frame tick beginning while the pixel buffer is already mutably
held by an in-progress tick is dropped entirely: the `try_borrow_mut`
denial means the user update closure is never invoked and the pixel
buffer and application memory are unchanged; `gameViewUpdate` is a total
function, so the denied tick neither blocks, nor queues work, nor fails. -/
theorem tick_dropped_when_guard_held {φ μ : Type} (fb : φ) (memory : μ)
    (lastTime now : ℤ) (userUpdate : ℤ → φ → μ → φ × μ) :
    (gameViewUpdate true fb memory lastTime now userUpdate).fb = fb ∧
    (gameViewUpdate true fb memory lastTime now userUpdate).memory = memory ∧
    (gameViewUpdate true fb memory lastTime now userUpdate).ranUpdate = false :=
  ⟨rfl, rfl, rfl⟩

/-- Witness for C9 at a concrete integer state and update closure. -/
theorem tick_dropped_when_guard_held_witness :
    (gameViewUpdate true (0 : ℤ) (0 : ℤ) 0 1 (fun _ f m => (f + 1, m + 1))).fb = 0 ∧
    (gameViewUpdate true (0 : ℤ) (0 : ℤ) 0 1 (fun _ f m => (f + 1, m + 1))).memory = 0 ∧
    (gameViewUpdate true (0 : ℤ) (0 : ℤ) 0 1
      (fun _ f m => (f + 1, m + 1))).ranUpdate = false :=
  tick_dropped_when_guard_held (φ := ℤ) (μ := ℤ) 0 0 0 1 (fun _ f m => (f + 1, m + 1))

/-- C10: the packed index starts as `(2 << 32) | 0`: write index
`CHANNELS = 2`, read index `0`, so before any producer tick the consumer
already sees exactly one channel-group (2 samples) available to read, and
the ring does not start in the empty `write_index == read_index` state. -/
theorem initial_indices_one_group :
    writeIndexOf initialIndices = CHANNELS ∧
    readIndexOf initialIndices = 0 ∧
    availableSamples (writeIndexOf initialIndices) (readIndexOf initialIndices) =
      CHANNELS ∧
    writeIndexOf initialIndices ≠ readIndexOf initialIndices := by
  decide

end Glazer
